import Mathlib

/-!
# Fishy service worker — caching policy engine

A shallow embedding of `src/wasm_resources/service-worker.js`.

* JavaScript strings are Lean strings; `startsWith`, `endsWith`, `includes` and the
  regular expressions of `CACHE_PATTERNS` work on their character lists.
* The Cache Storage of the browser is a list of named partitions in creation order, each a
  list of `(request identity, response)` entries; `caches.match` scans them in that order.
* The network primitive and the outcome of partition deletions and of writes are
  parameters (`Env`).
* A promise is a function from the state of the worker (`World`) to its settled outcome
  (`Except JsError α`, `.error` being a rejection) and the state afterwards. The state also
  records the calls the handlers make (`fetch`, `caches.delete`, `skipWaiting`,
  `clients.claim`, `console`, `postMessage`).
* `cache.put`, which the source starts without `await` or `waitUntil`, does not complete
  inside the handler: the handler returns with the write in flight (`World.pendingPuts`),
  and `settlePuts` is the later moment at which the writes in flight complete or fail.
  What another handler sees depends on whether it runs before or after that moment.
-/

namespace Fishy

/-! ## Strings -/

/-- JavaScript `s.startsWith(p)`. -/
def startsWith (s p : String) : Bool := p.data.isPrefixOf s.data

/-- JavaScript `s.endsWith(p)`. -/
def endsWith (s p : String) : Bool := p.data.isSuffixOf s.data

/-- JavaScript `s.includes(p)`: `p` occurs at some position of `s`. -/
def includes (s p : String) : Bool := s.data.tails.any (fun t => p.data.isPrefixOf t)

/-! ## Regular expressions (the fragment `CACHE_PATTERNS` is written in) -/

/-- Body of a regular expression: literal text, concatenation, alternation. -/
inductive Re where
  | lit (cs : List Char)
  | seq (a b : Re)
  | alt (a b : Re)

/-- Every way of cutting a list in two. -/
def splits : List Char → List (List Char × List Char)
  | [] => [([], [])]
  | c :: cs => ([], c :: cs) :: (splits cs).map (fun p => (c :: p.1, p.2))

/-- The body matches exactly the text `s`. -/
def Re.full : Re → List Char → Bool
  | .lit cs, s => s == cs
  | .seq a b, s => (splits s).any (fun p => a.full p.1 && b.full p.2)
  | .alt a b, s => a.full s || b.full s

/-- A regular expression literal: body with optional `^` and `$` anchors (no flags). -/
structure RegExp where
  bol : Bool
  body : Re
  eol : Bool

/-- JavaScript `pattern.test(s)`: the body matches some substring of `s`, which starts the
text when the pattern begins with `^` and ends it when the pattern ends with `$`. -/
def RegExp.test (p : RegExp) (s : String) : Bool :=
  (splits s.data).any (fun x =>
    (!p.bol || x.1.isEmpty) &&
      (splits x.2).any (fun y => p.body.full y.1 && (!p.eol || y.2.isEmpty)))

/-- Alternation `(a|b|...)` of literal words. -/
def Re.words : List String → Re
  | [] => .lit []
  | [w] => .lit w.data
  | w :: ws => .alt (.lit w.data) (Re.words ws)

/-! ## Configuration (lines 4-22) -/

def CACHE_VERSION : String := "fishy-v1.0.0"
def RUNTIME_CACHE : String := "fishy-runtime-v1.0.0"
def ASSET_CACHE : String := "fishy-assets-v1.0.0"

/-- Core files cached on install. -/
def PRECACHE_ASSETS : List String := ["/", "/index.html", "/fishy.js", "/fishy_bg.wasm"]

/-- The values of `CACHE_PATTERNS`, in the order of its keys: assets, images, audio, fonts. -/
def CACHE_PATTERNS : List RegExp :=
  [ -- /^\/assets\//
    { bol := true, body := .lit "/assets/".data, eol := false },
    -- /\.(png|jpg|jpeg|gif|webp|svg)$/
    { bol := false, body := .seq (.lit ".".data) (Re.words ["png", "jpg", "jpeg", "gif", "webp", "svg"]),
      eol := true },
    -- /\.(ogg|mp3|wav)$/
    { bol := false, body := .seq (.lit ".".data) (Re.words ["ogg", "mp3", "wav"]), eol := true },
    -- /\.(woff|woff2|ttf|otf)$/
    { bol := false, body := .seq (.lit ".".data) (Re.words ["woff", "woff2", "ttf", "otf"]),
      eol := true } ]

/-- Check if URL matches any cache pattern (lines 181-183). -/
def matchesCachePattern (pathname : String) : Bool :=
  CACHE_PATTERNS.any (fun pattern => pattern.test pathname)

/-! ## Requests, responses, partitions -/

/-- A parsed URL (`new URL(request.url)`). -/
structure URL where
  protocol : String
  host : String
  pathname : String
  search : String
  deriving DecidableEq, Repr

/-- Request identity: method and URL. -/
structure RequestIdentity where
  method : String
  url : URL
  deriving DecidableEq, Repr

/-- A request; `accept` is `request.headers.get('accept')`, `none` for JavaScript `null`
(the request carries no Accept header). -/
structure Request where
  method : String
  url : URL
  accept : Option String
  deriving DecidableEq, Repr

def Request.identity (r : Request) : RequestIdentity := { method := r.method, url := r.url }

/-- A response snapshot. -/
structure Response where
  status : Nat
  statusText : String
  headers : List (String × String)
  body : String
  deriving DecidableEq, Repr

/-- JavaScript `response.ok`: status in the range 200-299. -/
def Response.ok (r : Response) : Bool := decide (200 ≤ r.status) && decide (r.status ≤ 299)

/-- A named cache partition. -/
structure Partition where
  name : String
  entries : List (RequestIdentity × Response)
  deriving DecidableEq, Repr

/-- The entry stored for a request identity in one partition (`cache.match`). -/
def Partition.get (p : Partition) (k : RequestIdentity) : Option Response :=
  (p.entries.find? (fun e => e.1 == k)).map (fun e => e.2)

/-- Put into one partition (`cache.put`): entries of the same identity are replaced. -/
def Partition.put (p : Partition) (k : RequestIdentity) (v : Response) : Partition :=
  { p with entries := p.entries.filter (fun e => e.1 != k) ++ [(k, v)] }

/-- Global lookup `caches.match(request)`: first hit over all partitions in creation order. -/
def cachesMatch (cs : List Partition) (request : Request) : Option Response :=
  cs.findSome? (fun p => p.get request.identity)

/-- Partition handle `caches.open(name)`: the partition is created when it does not exist. -/
def cachesOpen (name : String) (cs : List Partition) : List Partition :=
  if cs.any (fun p => p.name == name) then cs else cs ++ [{ name := name, entries := [] }]

/-- Write `cache.put(request, response)` through the handle of partition `name`. -/
def cachePut (name : String) (k : RequestIdentity) (v : Response) (cs : List Partition) :
    List Partition :=
  cs.map (fun p => if p.name == name then p.put k v else p)

/-- Partition names `caches.keys()`. -/
def cachesKeys (cs : List Partition) : List String := cs.map (fun p => p.name)

/-! ## Worker state and promises -/

abbrev JsError := String

/-- A write `cache.put(request, response)` on the handle of partition `cacheName` that has
been started and has not completed. -/
structure PendingPut where
  cacheName : String
  key : RequestIdentity
  response : Response
  deriving DecidableEq, Repr

/-- State of the worker and trace of the calls made so far (oldest first). `pendingPuts` are
the writes in flight. -/
structure World where
  caches : List Partition
  pendingPuts : List PendingPut
  fetched : List Request
  deleteCalls : List String
  console : List String
  skipWaitingCalls : Nat
  claimCalls : Nat
  posted : List String
  deriving DecidableEq, Repr

/-- The environment: outcome of the network primitive for each request, which partition
deletions fail with an error, which writes fail, and the origin the worker is served from. -/
structure Env where
  fetch : Request → Except JsError Response
  deleteFails : String → Bool
  putFails : PendingPut → Bool
  protocol : String
  host : String

/-- A promise: settles to a value or a rejection, and changes the state. -/
abbrev Promise (α : Type) := World → Except JsError α × World

/-- A promise already resolved. -/
def resolve {α : Type} (a : α) : Promise α := fun w => (.ok a, w)

/-- Chaining `p.then(f)`: a rejection of `p` skips `f`. -/
def andThen {α β : Type} (p : Promise α) (f : α → Promise β) : Promise β := fun w =>
  match p w with
  | (.ok a, w1) => f a w1
  | (.error e, w1) => (.error e, w1)

/-- Handler `p.catch(h)`: a rejection of `p` is handed to `h`, whose outcome settles the
promise. -/
def catchErr {α : Type} (p : Promise α) (h : JsError → Promise α) : Promise α := fun w =>
  match p w with
  | (.ok a, w1) => (.ok a, w1)
  | (.error e, w1) => h e w1

/-- Combinator `Promise.all(ps)` over promises already started: every one of them runs; the
result is rejected when one of them is. -/
def promiseAll {α : Type} : List (Promise α) → Promise (List α)
  | [] => fun w => (.ok [], w)
  | p :: ps => fun w =>
    match p w with
    | (r, w1) =>
      match promiseAll ps w1 with
      | (rs, w2) =>
        (match r, rs with
          | .ok a, .ok as => .ok (a :: as)
          | .error e, _ => .error e
          | .ok _, .error e => .error e, w2)

/-- Message on the console (the arguments after the message text are left out). -/
def consoleLog (msg : String) : Promise Unit := fun w =>
  (.ok (), { w with console := w.console ++ [msg] })

/-- Call of `self.skipWaiting()`. -/
def skipWaiting : Promise Unit := fun w =>
  (.ok (), { w with skipWaitingCalls := w.skipWaitingCalls + 1 })

/-- Call of `self.clients.claim()`. -/
def clientsClaim : Promise Unit := fun w =>
  (.ok (), { w with claimCalls := w.claimCalls + 1 })

/-- Call of `caches.delete(name)`: rejects when the environment makes the deletion fail,
otherwise removes the partition and resolves to whether it existed. A write in flight on a
handle of the deleted partition can reach no partition a lookup sees, also when a partition
of that name is created again, so it is dropped from the writes in flight. -/
def cachesDelete (env : Env) (name : String) : Promise Bool := fun w =>
  if env.deleteFails name then
    (.error "caches.delete failed", { w with deleteCalls := w.deleteCalls ++ [name] })
  else
    (.ok (w.caches.any (fun p => p.name == name)),
      { w with deleteCalls := w.deleteCalls ++ [name],
               caches := w.caches.filter (fun p => p.name != name),
               pendingPuts := w.pendingPuts.filter (fun q => q.cacheName != name) })

/-- Start of `cache.put(request, response)` on the handle of partition `cacheName`, not
awaited: the write is in flight when the caller goes on. -/
def startPut (cacheName : String) (k : RequestIdentity) (v : Response) (w : World) : World :=
  { w with pendingPuts := w.pendingPuts ++ [{ cacheName := cacheName, key := k, response := v }] }

/-- Completion of the writes in flight, oldest first. A write that fails stores nothing (its
rejection is handled by nobody). -/
def settlePuts (env : Env) (w : World) : World :=
  { w with
    caches := w.pendingPuts.foldl
      (fun cs q => if env.putFails q then cs else cachePut q.cacheName q.key q.response cs)
      w.caches,
    pendingPuts := [] }

/-- Call of the network primitive `fetch(request)`. -/
def fetch (env : Env) (request : Request) : Promise Response := fun w =>
  (env.fetch request, { w with fetched := w.fetched ++ [request] })

/-! ## Strategy engine (lines 95-178) -/

/-- Fallback of `networkFirst` when the network failed and nothing is cached. -/
def offlineResponse : Response :=
  { status := 503, statusText := "Service Unavailable",
    headers := [("Content-Type", "text/plain")],
    body := "Offline - Please check your connection" }

/-- Fallback of `cacheFirst` when the network failed. A `Response` built from a string body
without headers gets the content type of plain text. -/
def unavailableResponse : Response :=
  { status := 404, statusText := "Not Found",
    headers := [("Content-Type", "text/plain;charset=UTF-8")],
    body := "Resource not available offline" }

/-- Network-first strategy (lines 118-147). The response is returned while the write of
lines 124-125 is in flight. -/
def networkFirst (env : Env) (request : Request) : Promise Response := fun w =>
  match fetch env request w with
  | (.ok networkResponse, w1) =>
    -- Only cache successful responses
    if networkResponse.status = 200 then
      -- the partition is opened (awaited), the write is started and not awaited
      (.ok networkResponse,
        startPut RUNTIME_CACHE request.identity networkResponse
          { w1 with caches := cachesOpen RUNTIME_CACHE w1.caches })
    else
      (.ok networkResponse, w1)
  | (.error _, w1) =>
    -- Network failed, try cache
    match cachesMatch w1.caches request with
    | some cachedResponse =>
      (.ok cachedResponse,
        { w1 with console := w1.console ++ ["[Fishy SW] Serving from cache (offline):"] })
    | none => (.ok offlineResponse, w1)

/-- Cache-first strategy (lines 150-178). The lookup is the global `caches.match`; the
response is returned while the write of lines 164-165 is in flight. -/
def cacheFirst (env : Env) (request : Request) (cacheName : String) : Promise Response :=
  fun w =>
  match cachesMatch w.caches request with
  | some cachedResponse => (.ok cachedResponse, w)
  | none =>
    -- Not in cache, fetch from network
    match fetch env request w with
    | (.ok networkResponse, w1) =>
      if networkResponse.status = 200 then
        -- the partition is opened (awaited), the write is started and not awaited
        (.ok networkResponse,
          startPut cacheName request.identity networkResponse
            { w1 with caches := cachesOpen cacheName w1.caches })
      else
        (.ok networkResponse, w1)
    | (.error _, w1) =>
      (.ok unavailableResponse,
        { w1 with console := w1.console ++ ["[Fishy SW] Failed to fetch:"] })

/-- Strategy selection (lines 95-115). Calling `.includes` on the `null` that
`headers.get('accept')` returns for a request without Accept header throws a `TypeError`,
which rejects the promise of the async function. -/
def handleFetch (env : Env) (request : Request) : Promise Response := fun w =>
  match request.accept with
  | none => (.error "TypeError: Cannot read properties of null (reading 'includes')", w)
  | some accept =>
    -- Strategy 1: Network-first for HTML
    if includes accept "text/html" then
      networkFirst env request w
    -- Strategy 2: Cache-first for WASM and JS
    else if endsWith request.url.pathname ".wasm" || endsWith request.url.pathname ".js" then
      cacheFirst env request CACHE_VERSION w
    -- Strategy 3: Cache-first for assets
    else if matchesCachePattern request.url.pathname then
      cacheFirst env request ASSET_CACHE w
    -- Strategy 4: Network-first with cache fallback for everything else
    else
      networkFirst env request w

/-- Fetch event listener (lines 76-93): `none` when the worker does not respond (non-GET and
non-http(s) requests go to the default network handling), otherwise the promise handed to
`event.respondWith`. -/
def onFetch (env : Env) (request : Request) : Option (Promise Response) :=
  if request.method != "GET" then none
  else if !startsWith request.url.protocol "http" then none
  else some (handleFetch env request)

/-! ## Lifecycle manager (lines 25-73, 186-206) -/

/-- The request `cache.addAll` builds for a manifest path: a GET of the path on the origin
of the worker, with no headers set by the script. -/
def precacheRequest (env : Env) (path : String) : Request :=
  { method := "GET",
    url := { protocol := env.protocol, host := env.host, pathname := path, search := "" },
    accept := none }

/-- Whether the network delivers a response `addAll` accepts: fetched, with an ok status
other than 206 (partial content). -/
def precacheable (env : Env) (request : Request) : Bool :=
  match env.fetch request with
  | .ok response => response.ok && response.status != 206
  | .error _ => false

/-- Batch `cache.addAll(requests)` on partition `cacheName`: every request is fetched; when
all deliver an acceptable response they are all stored before the promise resolves,
otherwise nothing is stored and the promise rejects. -/
def addAll (env : Env) (cacheName : String) (requests : List Request) : Promise Unit :=
  fun w =>
  let w1 := { w with fetched := w.fetched ++ requests }
  if requests.all (precacheable env) then
    (.ok (),
      { w1 with caches := requests.foldl (fun cs r =>
          match env.fetch r with
          | .ok response => cachePut cacheName r.identity response cs
          | .error _ => cs) w1.caches })
  else
    (.error "TypeError: Failed to execute 'addAll' on 'Cache': Request failed", w1)

/-- Opening a partition as a promise; it resolves to the name, the handle of the partition. -/
def openCache (name : String) : Promise String := fun w =>
  (.ok name, { w with caches := cachesOpen name w.caches })

/-- Install event (lines 25-43): the promise handed to `event.waitUntil`. -/
def install (env : Env) : Promise Unit := fun w =>
  match consoleLog "[Fishy SW] Installing service worker..." w with
  | (_, w0) =>
    catchErr
      (andThen
        (andThen (openCache CACHE_VERSION) (fun cache =>
          andThen (consoleLog "[Fishy SW] Caching core assets") (fun _ =>
            addAll env cache (PRECACHE_ASSETS.map (precacheRequest env)))))
        (fun _ =>
          andThen (consoleLog "[Fishy SW] Core assets cached") (fun _ =>
            -- Activate immediately
            skipWaiting)))
      (fun _ => consoleLog "[Fishy SW] Failed to cache core assets:")
      w0

/-- The filter of the activate handler (lines 54-60): old cache versions. -/
def isOldCache (cacheName : String) : Bool :=
  startsWith cacheName "fishy-" &&
    cacheName != CACHE_VERSION &&
    cacheName != RUNTIME_CACHE &&
    cacheName != ASSET_CACHE

/-- Activate event (lines 46-73): the promise handed to `event.waitUntil`. -/
def activate (env : Env) : Promise Unit := fun w =>
  match consoleLog "[Fishy SW] Activating service worker..." w with
  | (_, w0) =>
    andThen
      (andThen (fun w1 => (.ok (cachesKeys w1.caches), w1)) (fun cacheNames =>
        promiseAll
          ((cacheNames.filter isOldCache).map (fun cacheName =>
            andThen (consoleLog "[Fishy SW] Deleting old cache:") (fun _ =>
              cachesDelete env cacheName)))))
      (fun _ =>
        andThen (consoleLog "[Fishy SW] Service worker activated") (fun _ =>
          -- Take control of all pages immediately
          clientsClaim))
      w0

/-- A message event: `data` is `event.data.type` (`none` when `event.data` is missing or has
no string type), `ports` the number of reply ports. -/
structure MessageEvent where
  data : Option String
  ports : Nat

/-- Message event (lines 186-206): the three commands are tested one after the other. -/
def onMessage (env : Env) (event : MessageEvent) : Promise Unit := fun w =>
  let s1 : Except JsError Unit × World :=
    if event.data = some "SKIP_WAITING" then
      andThen (consoleLog "[Fishy SW] Received SKIP_WAITING message") (fun _ => skipWaiting) w
    else (.ok (), w)
  let s2 : Except JsError Unit × World :=
    if event.data = some "CLEAR_CACHE" then
      andThen (consoleLog "[Fishy SW] Clearing all caches...") (fun _ =>
        andThen (fun w1 => (.ok (cachesKeys w1.caches), w1)) (fun cacheNames =>
          andThen (promiseAll (cacheNames.map (fun cacheName => cachesDelete env cacheName)))
            (fun _ => resolve ()))) s1.2
    else (.ok (), s1.2)
  if event.data = some "GET_VERSION" then
    if event.ports = 0 then
      (.error "TypeError: Cannot read properties of undefined (reading 'postMessage')", s2.2)
    else (s2.1, { s2.2 with posted := s2.2.posted ++ [CACHE_VERSION] })
  else s2

/-! ## Properties of states -/

/-- Every stored entry, in every partition, has status 200. -/
def AllStored200 (cs : List Partition) : Prop :=
  ∀ p ∈ cs, ∀ e ∈ p.entries, e.2.status = 200

/-- The request identity has an entry in some partition. -/
def Cached (cs : List Partition) (k : RequestIdentity) : Prop :=
  ∃ p ∈ cs, ∃ e ∈ p.entries, e.1 = k

/-- Every write in flight carries a response of status 200. -/
def AllPending200 (qs : List PendingPut) : Prop :=
  ∀ q ∈ qs, q.response.status = 200

/-- What a strategy does to the partitions and the writes in flight, from state `w` to
state `w1`: nothing, or, on a network response of status 200, it opens partition
`cacheName` and starts the write of that response under the request identity. -/
def StrategyEffect (env : Env) (request : Request) (cacheName : String) (w w1 : World) :
    Prop :=
  (w1.caches = w.caches ∧ w1.pendingPuts = w.pendingPuts) ∨
    ∃ resp, env.fetch request = .ok resp ∧ resp.status = 200 ∧
      w1.caches = cachesOpen cacheName w.caches ∧
      w1.pendingPuts = w.pendingPuts ++
        [{ cacheName := cacheName, key := request.identity, response := resp }]

/-- What a task that deletes partition `n` does to the state. -/
structure DeletesPartition (env : Env) (n : String) (t : Promise Bool) : Prop where
  caches : ∀ w p, p ∈ (t w).2.caches ↔ p ∈ w.caches ∧ ¬ (p.name = n ∧ env.deleteFails n = false)
  deleteCalls : ∀ w, (t w).2.deleteCalls = w.deleteCalls ++ [n]
  claimCalls : ∀ w, (t w).2.claimCalls = w.claimCalls
  settles : ∀ w, (t w).1.toBool = !env.deleteFails n

/-- The old partitions the activate handler finds. -/
def oldCaches (w : World) : List String := (cachesKeys w.caches).filter isOldCache

/-! ## Concrete inputs -/

def okResponse : Response := { status := 200, statusText := "OK", headers := [], body := "payload" }

/-- A network that fails for `/fishy.js` and answers 200 for everything else; deleting the
partition `fishy-v0.9.0` fails. -/
def flakyEnv : Env :=
  { fetch := fun r => if r.url.pathname = "/fishy.js" then .error "net::ERR_FAILED" else .ok okResponse,
    deleteFails := fun n => n == "fishy-v0.9.0",
    putFails := fun _ => false,
    protocol := "https:", host := "fishy.example" }

/-- A network that answers 200 for everything; no deletion fails. -/
def onlineEnv : Env :=
  { fetch := fun _ => .ok okResponse, deleteFails := fun _ => false,
    putFails := fun _ => false, protocol := "https:", host := "fishy.example" }

/-- A network that fails for everything; no deletion fails. -/
def offlineEnv : Env :=
  { fetch := fun _ => .error "net::ERR_INTERNET_DISCONNECTED", deleteFails := fun _ => false,
    putFails := fun _ => false, protocol := "https:", host := "fishy.example" }

def emptyWorld : World :=
  { caches := [], pendingPuts := [], fetched := [], deleteCalls := [], console := [], skipWaitingCalls := 0,
    claimCalls := 0, posted := [] }

/-- The worker state with a partition of an older version next to the current one. -/
def staleWorld : World :=
  { emptyWorld with
    caches := [{ name := "fishy-v0.9.0", entries := [] }, { name := CACHE_VERSION, entries := [] }] }

def getRequest (pathname : String) (accept : Option String) : Request :=
  { method := "GET",
    url := { protocol := "https:", host := "fishy.example", pathname := pathname, search := "" },
    accept := accept }

/-- The worker state after an install and activation: the core partition exists and holds
the application shell document. -/
def installedWorld : World :=
  { emptyWorld with
    caches := [{ name := CACHE_VERSION,
                 entries := [((getRequest "/index.html" none).identity, okResponse)] }] }

/-- The worker state with one resource cached in the assets partition. -/
def cachedWorld : World :=
  { emptyWorld with
    caches := [{ name := ASSET_CACHE,
                 entries := [((getRequest "/logo.png" (some "image/png")).identity, okResponse)] }] }

/-! ## Facts about strings and patterns -/

theorem mem_splits (s : List Char) (p : List Char × List Char) :
    p ∈ splits s ↔ p.1 ++ p.2 = s := by
  induction s generalizing p with
  | nil =>
    obtain ⟨a, b⟩ := p
    simp [splits]
  | cons c cs ih =>
    obtain ⟨a, b⟩ := p
    simp only [splits, List.mem_cons, List.mem_map, Prod.mk.injEq]
    constructor
    · rintro (⟨rfl, rfl⟩ | ⟨q, hq, rfl, rfl⟩)
      · simp
      · simp [(ih q).1 hq]
    · intro h
      cases a with
      | nil => left; simpa using h
      | cons x xs =>
        right
        simp at h
        exact ⟨(xs, b), (ih _).2 h.2, by simp [h.1], rfl⟩

theorem splits_any (s : List Char) (f : List Char × List Char → Bool) :
    (splits s).any f = true ↔ ∃ a b, a ++ b = s ∧ f (a, b) = true := by
  simp only [List.any_eq_true, mem_splits]
  constructor
  · rintro ⟨⟨a, b⟩, h, hf⟩; exact ⟨a, b, h, hf⟩
  · rintro ⟨a, b, h, hf⟩; exact ⟨(a, b), h, hf⟩

theorem test_anchored_start (lit : List Char) (s : String) :
    RegExp.test { bol := true, body := .lit lit, eol := false } s = lit.isPrefixOf s.data := by
  rw [Bool.eq_iff_iff, RegExp.test, splits_any]
  simp only [Bool.not_true, Bool.false_or, Bool.and_eq_true, List.isEmpty_iff, splits_any,
    Re.full, beq_iff_eq, Bool.not_false, Bool.true_or, and_true, List.isPrefixOf_iff_prefix]
  constructor
  · rintro ⟨a, b, hab, rfl, c, d, hcd, rfl⟩
    simp at hab
    exact ⟨d, by rw [hcd, hab]⟩
  · rintro ⟨t, ht⟩
    exact ⟨[], s.data, rfl, rfl, lit, t, ht, rfl⟩

theorem test_anchored_end (body : Re) (s : String) :
    RegExp.test { bol := false, body := body, eol := true } s
      = s.data.tails.any (fun t => body.full t) := by
  rw [Bool.eq_iff_iff, RegExp.test, splits_any]
  simp only [Bool.not_false, Bool.true_or, Bool.true_and, splits_any, Bool.not_true,
    Bool.false_or, Bool.and_eq_true, List.isEmpty_iff]
  rw [List.any_eq_true]
  simp only [List.mem_tails]
  constructor
  · rintro ⟨a, b, hab, c, d, hcd, hc, rfl⟩
    simp at hcd
    exact ⟨c, ⟨a, by rw [hcd, hab]⟩, hc⟩
  · rintro ⟨t, ⟨a, ha⟩, ht⟩
    exact ⟨a, t, ha, t, [], by simp, ht, rfl⟩

theorem full_words (w : String) (ws : List String) (t : List Char) :
    (Re.words (w :: ws)).full t = true ↔ ∃ x ∈ w :: ws, t = x.data := by
  induction ws generalizing w with
  | nil => simp [Re.words, Re.full]
  | cons v vs ih =>
    have hw : Re.words (w :: v :: vs) = .alt (.lit w.data) (Re.words (v :: vs)) := rfl
    rw [hw, Re.full, Bool.or_eq_true, ih v]
    simp [Re.full]

theorem full_seq_lit (d : List Char) (r : Re) (t : List Char) :
    (Re.seq (.lit d) r).full t = true ↔ ∃ b, t = d ++ b ∧ r.full b = true := by
  rw [Re.full, splits_any]
  simp only [Re.full, Bool.and_eq_true, beq_iff_eq]
  constructor
  · rintro ⟨a, b, hab, rfl, hb⟩; exact ⟨b, hab.symm, hb⟩
  · rintro ⟨b, rfl, hb⟩; exact ⟨d, b, rfl, rfl, hb⟩

theorem test_extension (d : List Char) (w : String) (ws : List String) (s : String) :
    RegExp.test { bol := false, body := .seq (.lit d) (Re.words (w :: ws)), eol := true } s
      = (w :: ws).any (fun x => (d ++ x.data).isSuffixOf s.data) := by
  rw [test_anchored_end, Bool.eq_iff_iff]
  simp only [List.any_eq_true, List.mem_tails, full_seq_lit, full_words,
    List.isSuffixOf_iff_suffix]
  constructor
  · rintro ⟨t, ht, b, rfl, x, hx, rfl⟩; exact ⟨x, hx, ht⟩
  · rintro ⟨x, hx, ht⟩; exact ⟨_, ht, x.data, rfl, x, hx, rfl⟩

theorem matchesCachePattern_eq (pathname : String) :
    matchesCachePattern pathname =
      (startsWith pathname "/assets/" ||
        [".png", ".jpg", ".jpeg", ".gif", ".webp", ".svg", ".ogg", ".mp3", ".wav",
          ".woff", ".woff2", ".ttf", ".otf"].any (fun ext => endsWith pathname ext)) := by
  simp [matchesCachePattern, CACHE_PATTERNS, test_anchored_start, test_extension, startsWith,
    endsWith, Bool.or_assoc]

/-! ## Facts about the partition store -/

theorem get_eq_some {p : Partition} {k : RequestIdentity} {v : Response}
    (h : p.get k = some v) : (k, v) ∈ p.entries := by
  unfold Partition.get at h
  cases he : List.find? (fun e => e.1 == k) p.entries with
  | none => rw [he] at h; simp at h
  | some e =>
  rw [he] at h
  simp only [Option.map_some', Option.some.injEq] at h
  subst h
  have h1 := List.mem_of_find?_eq_some he
  have h2 := List.find?_some he
  simp only [beq_iff_eq] at h2
  rw [← h2]
  exact h1

theorem get_eq_none {p : Partition} {k : RequestIdentity} :
    p.get k = none ↔ ∀ e ∈ p.entries, e.1 ≠ k := by
  simp [Partition.get, List.find?_eq_none]

theorem cachesMatch_eq_some {cs : List Partition} {r : Request} {v : Response}
    (h : cachesMatch cs r = some v) : ∃ p ∈ cs, (r.identity, v) ∈ p.entries := by
  obtain ⟨p, hp, hv⟩ := List.exists_of_findSome?_eq_some h
  exact ⟨p, hp, get_eq_some hv⟩

theorem cachesMatch_eq_none {cs : List Partition} {r : Request} :
    cachesMatch cs r = none ↔ ¬ Cached cs r.identity := by
  simp only [cachesMatch, List.findSome?_eq_none_iff, get_eq_none, Cached, not_exists, not_and]

theorem cachesMatch_isSome {cs : List Partition} {r : Request} :
    (∃ v, cachesMatch cs r = some v) ↔ Cached cs r.identity := by
  rw [← not_iff_not, ← cachesMatch_eq_none]
  cases cachesMatch cs r <;> simp

theorem allStored200_open {cs : List Partition} (name : String) (h : AllStored200 cs) :
    AllStored200 (cachesOpen name cs) := by
  unfold cachesOpen
  split
  · exact h
  · intro p hp e he
    rcases List.mem_append.1 hp with hp | hp
    · exact h p hp e he
    · simp only [List.mem_singleton] at hp
      subst hp
      simp at he

theorem allStored200_put {cs : List Partition} (name : String) (k : RequestIdentity)
    (v : Response) (hv : v.status = 200) (h : AllStored200 cs) :
    AllStored200 (cachePut name k v cs) := by
  intro p hp e he
  simp only [cachePut, List.mem_map] at hp
  obtain ⟨q, hq, rfl⟩ := hp
  split at he
  · simp only [Partition.put, List.mem_append, List.mem_filter, List.mem_singleton] at he
    rcases he with he | he
    · exact h q hq e he.1
    · rw [he]; exact hv
  · exact h q hq e he

theorem allStored200_match {cs : List Partition} {r : Request} {v : Response}
    (h : AllStored200 cs) (hm : cachesMatch cs r = some v) : v.status = 200 := by
  obtain ⟨p, hp, he⟩ := cachesMatch_eq_some hm
  exact h p hp _ he

theorem cachesKeys_cachePut (n : String) (k : RequestIdentity) (v : Response)
    (cs : List Partition) : cachesKeys (cachePut n k v cs) = cachesKeys cs := by
  simp only [cachesKeys, cachePut, List.map_map]
  apply List.map_congr_left
  intro p _
  simp only [Function.comp]
  split <;> rfl

theorem cachesKeys_settle_foldl (env : Env) (qs : List PendingPut) (cs : List Partition) :
    cachesKeys (qs.foldl
        (fun cs q => if env.putFails q then cs else cachePut q.cacheName q.key q.response cs)
        cs) = cachesKeys cs := by
  induction qs generalizing cs with
  | nil => rfl
  | cons q qs ih =>
    simp only [List.foldl_cons]
    rw [ih]
    split
    · rfl
    · exact cachesKeys_cachePut _ _ _ _

/-! ## Facts about the two strategies -/

theorem networkFirst_effect (env : Env) (request : Request) (w : World) :
    StrategyEffect env request RUNTIME_CACHE w (networkFirst env request w).2 := by
  unfold StrategyEffect networkFirst fetch startPut
  cases hf : env.fetch request with
  | error e =>
    simp only
    cases cachesMatch w.caches request <;> exact Or.inl ⟨rfl, rfl⟩
  | ok resp =>
    simp only
    by_cases hs : resp.status = 200
    · right; refine ⟨resp, rfl, hs, ?_, ?_⟩ <;> simp [hs]
    · left; simp [hs]

theorem cacheFirst_effect (env : Env) (request : Request) (cacheName : String) (w : World) :
    StrategyEffect env request cacheName w (cacheFirst env request cacheName w).2 := by
  unfold StrategyEffect cacheFirst fetch startPut
  cases hm : cachesMatch w.caches request with
  | some v => exact Or.inl ⟨rfl, rfl⟩
  | none =>
    simp only
    cases hf : env.fetch request with
    | error e => exact Or.inl ⟨rfl, rfl⟩
    | ok resp =>
      simp only
      by_cases hs : resp.status = 200
      · right; refine ⟨resp, rfl, hs, ?_, ?_⟩ <;> simp [hs]
      · left; simp [hs]

/-- The strategy `handleFetch` runs: one of the two strategies, or the rejection for a
request without Accept header. -/
theorem handleFetch_cases (env : Env) (request : Request) (w : World) :
    (request.accept = none ∧ ∃ e, handleFetch env request w = (.error e, w)) ∨
      handleFetch env request w = networkFirst env request w ∨
      ∃ cacheName, handleFetch env request w = cacheFirst env request cacheName w := by
  unfold handleFetch
  cases ha : request.accept with
  | none => left; exact ⟨rfl, _, rfl⟩
  | some a =>
    right
    simp only
    split
    · left; rfl
    · split
      · right; exact ⟨_, rfl⟩
      · split
        · right; exact ⟨_, rfl⟩
        · left; rfl

theorem handleFetch_effect (env : Env) (request : Request) (w : World) :
    ∃ cacheName, StrategyEffect env request cacheName w (handleFetch env request w).2 := by
  rcases handleFetch_cases env request w with ⟨_, e, h⟩ | h | ⟨n, h⟩
  · exact ⟨CACHE_VERSION, by rw [h]; exact Or.inl ⟨rfl, rfl⟩⟩
  · exact ⟨RUNTIME_CACHE, by rw [h]; exact networkFirst_effect env request w⟩
  · exact ⟨n, by rw [h]; exact cacheFirst_effect env request n w⟩

/-- A strategy changes the partitions only on a network response of status 200. -/
theorem effect_caches_ne {env : Env} {request : Request} {n : String} {w w1 : World}
    (h : StrategyEffect env request n w w1) (hne : w1.caches ≠ w.caches) :
    ∃ resp, env.fetch request = .ok resp ∧ resp.status = 200 := by
  rcases h with ⟨h1, _⟩ | ⟨resp, h1, h2, _⟩
  · exact absurd h1 hne
  · exact ⟨resp, h1, h2⟩

/-- A strategy starts a write only of a network response of status 200. -/
theorem effect_pending {env : Env} {request : Request} {n : String} {w w1 : World}
    (h : StrategyEffect env request n w w1) :
    ∀ q ∈ w1.pendingPuts, q ∈ w.pendingPuts ∨
      (q.cacheName = n ∧ q.key = request.identity ∧ env.fetch request = .ok q.response ∧
        q.response.status = 200) := by
  intro q hq
  rcases h with ⟨_, h2⟩ | ⟨resp, h1, h2, _, h4⟩
  · rw [h2] at hq; exact Or.inl hq
  · rw [h4] at hq
    rcases List.mem_append.1 hq with hq | hq
    · exact Or.inl hq
    · simp only [List.mem_singleton] at hq
      subst hq
      exact Or.inr ⟨rfl, rfl, h1, h2⟩

theorem effect_allStored200 {env : Env} {request : Request} {n : String} {w w1 : World}
    (h : StrategyEffect env request n w w1) (h0 : AllStored200 w.caches) :
    AllStored200 w1.caches := by
  rcases h with ⟨h1, _⟩ | ⟨_, _, _, h3, _⟩
  · rw [h1]; exact h0
  · rw [h3]; exact allStored200_open n h0

theorem effect_allPending200 {env : Env} {request : Request} {n : String} {w w1 : World}
    (h : StrategyEffect env request n w w1) (h0 : AllPending200 w.pendingPuts) :
    AllPending200 w1.pendingPuts := by
  intro q hq
  rcases effect_pending h q hq with h1 | ⟨_, _, _, h1⟩
  · exact h0 q h1
  · exact h1

theorem allStored200_settle (env : Env) (qs : List PendingPut) (cs : List Partition)
    (hq : AllPending200 qs) (hc : AllStored200 cs) :
    AllStored200 (qs.foldl
      (fun cs q => if env.putFails q then cs else cachePut q.cacheName q.key q.response cs)
      cs) := by
  induction qs generalizing cs with
  | nil => exact hc
  | cons q qs ih =>
    simp only [List.foldl_cons]
    apply ih
    · intro x hx; exact hq x (List.mem_cons_of_mem _ hx)
    · split
      · exact hc
      · exact allStored200_put _ _ _ (hq q (List.mem_cons_self _ _)) hc

theorem allStored200_settlePuts (env : Env) (w : World)
    (hq : AllPending200 w.pendingPuts) (hc : AllStored200 w.caches) :
    AllStored200 (settlePuts env w).caches :=
  allStored200_settle env w.pendingPuts w.caches hq hc

/-! ## Facts about the lifecycle handlers -/

theorem cachesDelete_deletes (env : Env) (n : String) :
    DeletesPartition env n (cachesDelete env n) := by
  constructor
  · intro w p
    unfold cachesDelete
    cases h : env.deleteFails n <;> simp [h]
  · intro w
    unfold cachesDelete
    cases h : env.deleteFails n <;> simp [h]
  · intro w
    unfold cachesDelete
    cases h : env.deleteFails n <;> simp [h]
  · intro w
    unfold cachesDelete
    cases h : env.deleteFails n <;> simp [h, Except.toBool]

theorem logged_delete_deletes (env : Env) (msg : String) (n : String) :
    DeletesPartition env n (andThen (consoleLog msg) (fun _ => cachesDelete env n)) := by
  have h := cachesDelete_deletes env n
  constructor
  · intro w p
    simpa [andThen, consoleLog] using h.caches { w with console := w.console ++ [msg] } p
  · intro w
    simpa [andThen, consoleLog] using h.deleteCalls { w with console := w.console ++ [msg] }
  · intro w
    simpa [andThen, consoleLog] using h.claimCalls { w with console := w.console ++ [msg] }
  · intro w
    simpa [andThen, consoleLog] using h.settles { w with console := w.console ++ [msg] }

theorem promiseAll_deletes (env : Env) (f : String → Promise Bool)
    (hf : ∀ n, DeletesPartition env n (f n)) (names : List String) (w : World) :
    (∀ p, p ∈ (promiseAll (names.map f) w).2.caches ↔
      p ∈ w.caches ∧ ¬ (p.name ∈ names ∧ env.deleteFails p.name = false)) ∧
    (promiseAll (names.map f) w).2.deleteCalls = w.deleteCalls ++ names ∧
    (promiseAll (names.map f) w).2.claimCalls = w.claimCalls ∧
    (promiseAll (names.map f) w).1.toBool = names.all (fun n => !env.deleteFails n) := by
  induction names generalizing w with
  | nil => simp [promiseAll, Except.toBool]
  | cons n ns ih =>
    obtain ⟨ih1, ih2, ih3, ih4⟩ := ih (f n w).2
    have h := hf n
    simp only [List.map_cons, promiseAll]
    refine ⟨?_, ?_, ?_, ?_⟩
    · intro p
      rw [ih1 p, h.caches w p]
      simp only [List.mem_cons]
      constructor
      · rintro ⟨⟨hp, h1⟩, h2⟩
        refine ⟨hp, ?_⟩
        rintro ⟨hn | hn, hd⟩
        · exact h1 ⟨hn, hn ▸ hd⟩
        · exact h2 ⟨hn, hd⟩
      · rintro ⟨hp, h1⟩
        refine ⟨⟨hp, ?_⟩, ?_⟩
        · rintro ⟨hn, hd⟩
          exact h1 ⟨Or.inl hn, hn ▸ hd⟩
        · rintro ⟨hn, hd⟩
          exact h1 ⟨Or.inr hn, hd⟩
    · rw [ih2, h.deleteCalls w]; simp
    · rw [ih3, h.claimCalls w]
    · have h4 := h.settles w
      rw [List.all_cons, ← ih4, ← h4]
      cases (f n w).1 <;> cases (promiseAll (List.map f ns) (f n w).2).1 <;> rfl

theorem isOldCache_iff (n : String) :
    isOldCache n = true ↔
      startsWith n "fishy-" = true ∧ n ≠ "fishy-v1.0.0" ∧ n ≠ "fishy-runtime-v1.0.0" ∧
        n ≠ "fishy-assets-v1.0.0" := by
  simp [isOldCache, CACHE_VERSION, RUNTIME_CACHE, ASSET_CACHE, and_assoc]

theorem activate_spec (env : Env) (w : World) :
    (∀ p, p ∈ (activate env w).2.caches ↔
      p ∈ w.caches ∧ ¬ (p.name ∈ oldCaches w ∧ env.deleteFails p.name = false)) ∧
    (activate env w).2.deleteCalls = w.deleteCalls ++ oldCaches w ∧
    ((oldCaches w).all (fun n => !env.deleteFails n) = true →
      (activate env w).1 = .ok () ∧ (activate env w).2.claimCalls = w.claimCalls + 1) ∧
    ((oldCaches w).all (fun n => !env.deleteFails n) = false →
      (∃ e, (activate env w).1 = .error e) ∧ (activate env w).2.claimCalls = w.claimCalls) := by
  obtain ⟨h1, h2, h3, h4⟩ := promiseAll_deletes env
    (fun cacheName => andThen (consoleLog "[Fishy SW] Deleting old cache:")
      (fun _ => cachesDelete env cacheName))
    (fun n => logged_delete_deletes env _ n) (oldCaches w)
    { w with console := w.console ++ ["[Fishy SW] Activating service worker..."] }
  simp only [oldCaches] at h1 h2 h3 h4 ⊢
  simp only [activate, consoleLog, andThen, clientsClaim]
  revert h1 h2 h3 h4
  generalize promiseAll _ _ = R
  obtain ⟨r, v⟩ := R
  intro h1 h2 h3 h4
  cases r with
  | error e =>
    simp only [Except.toBool] at h4
    simp only at h1 h2 h3 ⊢
    refine ⟨h1, h2, ?_, ?_⟩
    · intro hall; rw [hall] at h4; cases h4
    · intro _; exact ⟨⟨e, rfl⟩, h3⟩
  | ok a =>
    simp only [Except.toBool] at h4
    simp only at h1 h2 h3 ⊢
    refine ⟨h1, h2, ?_, ?_⟩
    · intro _; exact ⟨trivial, by rw [h3]⟩
    · intro hall; rw [hall] at h4; cases h4

/-! ## Properties of the handlers -/

theorem onMessage_clear (env : Env) (ports : Nat) (w : World) :
    (onMessage env { data := some "CLEAR_CACHE", ports := ports } w).2 =
      (promiseAll ((cachesKeys w.caches).map (fun cacheName => cachesDelete env cacheName))
        { w with console := w.console ++ ["[Fishy SW] Clearing all caches..."] }).2 := by
  have h1 : (some "CLEAR_CACHE" = some "SKIP_WAITING") = False := by decide
  have h2 : (some "CLEAR_CACHE" = some "GET_VERSION") = False := by decide
  simp only [onMessage, h1, h2, if_false, if_true, andThen, consoleLog, resolve]
  generalize promiseAll _ _ = R
  obtain ⟨r, v⟩ := R
  cases r <;> rfl

/-- C10: after the CLEAR_CACHE command has been handled with every partition deletion
succeeding, no partition is left, so for every request whose identity was cached before and
every partition name, `cacheFirst` misses the cache and invokes the network primitive; its
result is the network response, or the 404 placeholder when the network fails. A write that
was in flight when the command was handled does not bring an entry back. -/
theorem clear_cache_then_cacheFirst_misses (env env2 : Env) (ports : Nat) (w : World)
    (request : Request) (cacheName : String)
    (hDeleted : ∀ n ∈ cachesKeys w.caches, env.deleteFails n = false)
    (hCached : Cached w.caches request.identity) :
    (onMessage env { data := some "CLEAR_CACHE", ports := ports } w).2.caches = [] ∧
    cachesMatch (onMessage env { data := some "CLEAR_CACHE", ports := ports } w).2.caches
      request = none ∧
    (cacheFirst env2 request cacheName
        (onMessage env { data := some "CLEAR_CACHE", ports := ports } w).2).2.fetched =
      (onMessage env { data := some "CLEAR_CACHE", ports := ports } w).2.fetched ++ [request] ∧
    (cacheFirst env2 request cacheName
        (onMessage env { data := some "CLEAR_CACHE", ports := ports } w).2).1 =
      (match env2.fetch request with
        | .ok networkResponse => .ok networkResponse
        | .error _ => .ok unavailableResponse) ∧
    (∃ entry, cachesMatch w.caches request = some entry) ∧
    (∀ envPut : Env, cachesMatch
      (settlePuts envPut (onMessage env { data := some "CLEAR_CACHE", ports := ports } w).2).caches
      request = none) := by
  have hnil : (onMessage env { data := some "CLEAR_CACHE", ports := ports } w).2.caches = [] := by
    rw [onMessage_clear]
    obtain ⟨h1, _, _, _⟩ := promiseAll_deletes env (fun cacheName => cachesDelete env cacheName)
      (fun n => cachesDelete_deletes env n) (cachesKeys w.caches)
      { w with console := w.console ++ ["[Fishy SW] Clearing all caches..."] }
    rw [List.eq_nil_iff_forall_not_mem]
    intro p hp
    have h := (h1 p).1 hp
    have hk : p.name ∈ cachesKeys w.caches := List.mem_map.2 ⟨p, h.1, rfl⟩
    exact h.2 ⟨hk, hDeleted _ hk⟩
  have hmiss : cachesMatch
      (onMessage env { data := some "CLEAR_CACHE", ports := ports } w).2.caches request
      = none := by
    rw [hnil]; rfl
  have hsettled : ∀ envPut : Env, cachesMatch
      (settlePuts envPut (onMessage env { data := some "CLEAR_CACHE", ports := ports } w).2).caches
      request = none := by
    intro envPut
    have hk := cachesKeys_settle_foldl envPut
      (onMessage env { data := some "CLEAR_CACHE", ports := ports } w).2.pendingPuts
      (onMessage env { data := some "CLEAR_CACHE", ports := ports } w).2.caches
    rw [hnil] at hk
    have h0 : (settlePuts envPut
        (onMessage env { data := some "CLEAR_CACHE", ports := ports } w).2).caches = [] := by
      simp only [settlePuts, hnil]
      exact List.map_eq_nil_iff.1 hk
    rw [h0]; rfl
  refine ⟨hnil, hmiss, ?_, ?_, cachesMatch_isSome.2 hCached, hsettled⟩
  · simp only [cacheFirst, hmiss, fetch]
    cases env2.fetch request with
    | error e => rfl
    | ok resp => simp only; split <;> rfl
  · simp only [cacheFirst, hmiss, fetch]
    cases env2.fetch request with
    | error e => rfl
    | ok resp => simp only; split <;> rfl

theorem clear_cache_then_cacheFirst_misses_witness :
    (onMessage onlineEnv { data := some "CLEAR_CACHE", ports := 0 } cachedWorld).2.caches = [] ∧
    (cacheFirst offlineEnv (getRequest "/logo.png" (some "image/png")) ASSET_CACHE
        (onMessage onlineEnv { data := some "CLEAR_CACHE", ports := 0 } cachedWorld).2).2.fetched =
      (onMessage onlineEnv { data := some "CLEAR_CACHE", ports := 0 } cachedWorld).2.fetched
        ++ [getRequest "/logo.png" (some "image/png")] :=
  have h := clear_cache_then_cacheFirst_misses onlineEnv offlineEnv 0 cachedWorld
    (getRequest "/logo.png" (some "image/png")) ASSET_CACHE
    (fun _ _ => rfl)
    ⟨_, List.mem_singleton.2 rfl, _, List.mem_singleton.2 rfl, rfl⟩
  ⟨h.1, h.2.2.1⟩

theorem install_of_failure (env : Env) (w : World)
    (h : (PRECACHE_ASSETS.map (precacheRequest env)).all (precacheable env) = false) :
    install env w = (.ok (),
      { w with
        console := w.console ++ ["[Fishy SW] Installing service worker...",
          "[Fishy SW] Caching core assets", "[Fishy SW] Failed to cache core assets:"],
        caches := cachesOpen CACHE_VERSION w.caches,
        fetched := w.fetched ++ PRECACHE_ASSETS.map (precacheRequest env) }) := by
  simp only [install, consoleLog, catchErr, andThen, openCache, addAll, h, Bool.false_eq_true,
    if_false, List.append_assoc, List.singleton_append, List.cons_append, List.nil_append]

/-- C1, refuted: the network fails for the manifest entry `/fishy.js`, so `addAll` rejects
and nothing is precached, yet the install step handed to `event.waitUntil` resolves. -/
theorem install_resolves_although_precache_fails :
    "/fishy.js" ∈ PRECACHE_ASSETS ∧
    flakyEnv.fetch (precacheRequest flakyEnv "/fishy.js") = .error "net::ERR_FAILED" ∧
    (install flakyEnv emptyWorld).1 = .ok () ∧
    (install flakyEnv emptyWorld).2.caches = [{ name := CACHE_VERSION, entries := [] }] := by
  refine ⟨by decide, rfl, rfl, rfl⟩

/-- C1, amended: when a manifest entry fails to fetch, nothing is written to the core
partition, `skipWaiting` is not called and the failure is logged by the catch handler, and
the install step handed to `event.waitUntil` resolves instead of rejecting. -/
theorem install_swallows_precache_failure (env : Env) (w : World)
    (hFail : ∃ path ∈ PRECACHE_ASSETS, ∃ e, env.fetch (precacheRequest env path) = .error e) :
    (install env w).1 = .ok () ∧
    (install env w).2.skipWaitingCalls = w.skipWaitingCalls ∧
    (install env w).2.caches = cachesOpen CACHE_VERSION w.caches ∧
    (install env w).2.console = w.console ++ ["[Fishy SW] Installing service worker...",
      "[Fishy SW] Caching core assets", "[Fishy SW] Failed to cache core assets:"] := by
  obtain ⟨path, hp, e, he⟩ := hFail
  have h : (PRECACHE_ASSETS.map (precacheRequest env)).all (precacheable env) = false := by
    rw [Bool.eq_false_iff]
    intro hall
    rw [List.all_eq_true] at hall
    have := hall _ (List.mem_map.2 ⟨path, hp, rfl⟩)
    simp [precacheable, he] at this
  rw [install_of_failure env w h]
  exact ⟨rfl, rfl, rfl, rfl⟩

theorem install_swallows_precache_failure_witness :
    (install flakyEnv emptyWorld).1 = .ok () ∧
    (install flakyEnv emptyWorld).2.skipWaitingCalls = 0 :=
  have h := install_swallows_precache_failure flakyEnv emptyWorld
    ⟨"/fishy.js", by decide, _, rfl⟩
  ⟨h.1, h.2.1⟩

/-- C2: the activate handler calls `caches.delete` on exactly the existing partition names
that start with `fishy-` and differ from the three current names; a partition is gone
afterwards exactly when it is one of those and its deletion did not fail; partitions outside
the namespace and the current core, runtime and assets partitions are kept, and
`CACHE_VERSION` is never among the deleted names. -/
theorem activate_deletes_exactly_old_caches (env : Env) (w : World) :
    (∃ deleted, (activate env w).2.deleteCalls = w.deleteCalls ++ deleted ∧
      ∀ n, n ∈ deleted ↔
        n ∈ cachesKeys w.caches ∧ startsWith n "fishy-" = true ∧ n ≠ "fishy-v1.0.0" ∧
          n ≠ "fishy-runtime-v1.0.0" ∧ n ≠ "fishy-assets-v1.0.0") ∧
    (∀ p, p ∈ (activate env w).2.caches ↔
      p ∈ w.caches ∧
        ¬ ((startsWith p.name "fishy-" = true ∧ p.name ≠ "fishy-v1.0.0" ∧
            p.name ≠ "fishy-runtime-v1.0.0" ∧ p.name ≠ "fishy-assets-v1.0.0") ∧
          env.deleteFails p.name = false)) ∧
    (∀ p ∈ w.caches,
      (p.name = CACHE_VERSION ∨ p.name = RUNTIME_CACHE ∨ p.name = ASSET_CACHE ∨
        startsWith p.name "fishy-" = false) → p ∈ (activate env w).2.caches) ∧
    CACHE_VERSION ∉ (activate env w).2.deleteCalls.drop w.deleteCalls.length := by
  obtain ⟨h1, h2, _, _⟩ := activate_spec env w
  have hmem : ∀ n, n ∈ oldCaches w ↔
      n ∈ cachesKeys w.caches ∧ startsWith n "fishy-" = true ∧ n ≠ "fishy-v1.0.0" ∧
        n ≠ "fishy-runtime-v1.0.0" ∧ n ≠ "fishy-assets-v1.0.0" := by
    intro n
    rw [oldCaches, List.mem_filter, isOldCache_iff]
  have hkeys : ∀ p ∈ w.caches, p.name ∈ cachesKeys w.caches := by
    intro p hp
    exact List.mem_map.2 ⟨p, hp, rfl⟩
  have hsurv : ∀ p, p ∈ (activate env w).2.caches ↔
      p ∈ w.caches ∧
        ¬ ((startsWith p.name "fishy-" = true ∧ p.name ≠ "fishy-v1.0.0" ∧
            p.name ≠ "fishy-runtime-v1.0.0" ∧ p.name ≠ "fishy-assets-v1.0.0") ∧
          env.deleteFails p.name = false) := by
    intro p
    rw [h1 p, hmem]
    constructor
    · rintro ⟨hp, hn⟩
      exact ⟨hp, fun ⟨ho, hd⟩ => hn ⟨⟨hkeys p hp, ho⟩, hd⟩⟩
    · rintro ⟨hp, hn⟩
      exact ⟨hp, fun ⟨⟨_, ho⟩, hd⟩ => hn ⟨ho, hd⟩⟩
  refine ⟨⟨oldCaches w, h2, hmem⟩, hsurv, ?_, ?_⟩
  · intro p hp hcur
    refine (hsurv p).2 ⟨hp, ?_⟩
    rintro ⟨⟨hs, hv, hr, ha⟩, _⟩
    rcases hcur with h | h | h | h
    · exact hv (by rw [h]; rfl)
    · exact hr (by rw [h]; rfl)
    · exact ha (by rw [h]; rfl)
    · rw [h] at hs; cases hs
  · rw [h2, List.drop_left, hmem]
    rintro ⟨_, _, hv, _⟩
    exact hv rfl

/-- C8, refuted: the deletion of the old partition `fishy-v0.9.0` fails with an error; the
promise of the activate handler rejects and `self.clients.claim` is not invoked. -/
theorem activate_does_not_claim_when_deletion_fails :
    flakyEnv.deleteFails "fishy-v0.9.0" = true ∧
    (activate flakyEnv staleWorld).1 = .error "caches.delete failed" ∧
    (activate flakyEnv staleWorld).2.claimCalls = 0 ∧
    (activate flakyEnv staleWorld).2.deleteCalls = ["fishy-v0.9.0"] := by
  refine ⟨?_, ?_, ?_, ?_⟩ <;> rfl

/-- C8, amended: when no deletion of an old partition fails, the activate handler resolves
and claims all clients; when one fails with an error, its promise rejects and
`self.clients.claim` is not invoked. -/
theorem activate_claims_iff_no_deletion_fails (env : Env) (w : World) :
    ((∀ n ∈ cachesKeys w.caches, isOldCache n = true → env.deleteFails n = false) →
      (activate env w).1 = .ok () ∧ (activate env w).2.claimCalls = w.claimCalls + 1) ∧
    ((∃ n ∈ cachesKeys w.caches, isOldCache n = true ∧ env.deleteFails n = true) →
      (∃ e, (activate env w).1 = .error e) ∧
        (activate env w).2.claimCalls = w.claimCalls) := by
  obtain ⟨_, _, h3, h4⟩ := activate_spec env w
  constructor
  · intro h
    apply h3
    simp only [oldCaches, List.all_eq_true, List.mem_filter, Bool.not_eq_true']
    rintro n ⟨hn, ho⟩
    exact h n hn ho
  · rintro ⟨n, hn, ho, hd⟩
    apply h4
    rw [Bool.eq_false_iff]
    intro hall
    simp only [oldCaches, List.all_eq_true, List.mem_filter, Bool.not_eq_true'] at hall
    have := hall n ⟨hn, ho⟩
    rw [hd] at this
    cases this

theorem activate_claims_iff_no_deletion_fails_witness :
    (∃ e, (activate flakyEnv staleWorld).1 = .error e) ∧
    (activate flakyEnv staleWorld).2.claimCalls = staleWorld.claimCalls ∧
    (activate onlineEnv staleWorld).1 = .ok () ∧
    (activate onlineEnv staleWorld).2.claimCalls = staleWorld.claimCalls + 1 :=
  have h1 := (activate_claims_iff_no_deletion_fails flakyEnv staleWorld).2
    ⟨"fishy-v0.9.0", by decide, by decide, rfl⟩
  have h2 := (activate_claims_iff_no_deletion_fails onlineEnv staleWorld).1
    (fun _ _ _ => rfl)
  ⟨h1.1, h1.2, h2.1, h2.2⟩

/-- C3: `networkFirst`, `cacheFirst` and `handleFetch` change the partitions only when the
network response has status 200, and start a write only of a network response of status 200;
when every stored entry has status 200 before, every stored entry has status 200 afterwards,
also once the writes in flight have completed, so a later cache lookup never returns a
response of status 404 or 500. -/
theorem only_status_200_persisted (env : Env) (request : Request) (cacheName : String)
    (w : World) (h : AllStored200 w.caches) :
    ((networkFirst env request w).2.caches ≠ w.caches →
        ∃ resp, env.fetch request = .ok resp ∧ resp.status = 200) ∧
    ((cacheFirst env request cacheName w).2.caches ≠ w.caches →
        ∃ resp, env.fetch request = .ok resp ∧ resp.status = 200) ∧
    ((handleFetch env request w).2.caches ≠ w.caches →
        ∃ resp, env.fetch request = .ok resp ∧ resp.status = 200) ∧
    AllStored200 (networkFirst env request w).2.caches ∧
    AllStored200 (cacheFirst env request cacheName w).2.caches ∧
    AllStored200 (handleFetch env request w).2.caches ∧
    (∀ (later : Request) (entry : Response),
      cachesMatch (handleFetch env request w).2.caches later = some entry →
        entry.status = 200 ∧ entry.status ≠ 404 ∧ entry.status ≠ 500) ∧
    (∀ q ∈ (networkFirst env request w).2.pendingPuts, q ∈ w.pendingPuts ∨
      (env.fetch request = .ok q.response ∧ q.response.status = 200)) ∧
    (∀ q ∈ (cacheFirst env request cacheName w).2.pendingPuts, q ∈ w.pendingPuts ∨
      (env.fetch request = .ok q.response ∧ q.response.status = 200)) ∧
    (∀ q ∈ (handleFetch env request w).2.pendingPuts, q ∈ w.pendingPuts ∨
      (env.fetch request = .ok q.response ∧ q.response.status = 200)) ∧
    (AllPending200 w.pendingPuts → ∀ envLater : Env,
      AllStored200 (settlePuts envLater (networkFirst env request w).2).caches ∧
      AllStored200 (settlePuts envLater (cacheFirst env request cacheName w).2).caches ∧
      AllStored200 (settlePuts envLater (handleFetch env request w).2).caches ∧
      ∀ (later : Request) (entry : Response),
        cachesMatch (settlePuts envLater (handleFetch env request w).2).caches later
            = some entry →
          entry.status = 200 ∧ entry.status ≠ 404 ∧ entry.status ≠ 500) := by
  have hN := networkFirst_effect env request w
  have hC := cacheFirst_effect env request cacheName w
  obtain ⟨n, hH⟩ := handleFetch_effect env request w
  have aH : AllStored200 (handleFetch env request w).2.caches := effect_allStored200 hH h
  refine ⟨effect_caches_ne hN, effect_caches_ne hC, effect_caches_ne hH,
    effect_allStored200 hN h, effect_allStored200 hC h, aH, ?_, ?_, ?_, ?_, ?_⟩
  · intro later entry hm
    have hs := allStored200_match aH hm
    exact ⟨hs, by omega, by omega⟩
  · intro q hq
    rcases effect_pending hN q hq with h1 | ⟨_, _, h1, h2⟩
    · exact Or.inl h1
    · exact Or.inr ⟨h1, h2⟩
  · intro q hq
    rcases effect_pending hC q hq with h1 | ⟨_, _, h1, h2⟩
    · exact Or.inl h1
    · exact Or.inr ⟨h1, h2⟩
  · intro q hq
    rcases effect_pending hH q hq with h1 | ⟨_, _, h1, h2⟩
    · exact Or.inl h1
    · exact Or.inr ⟨h1, h2⟩
  · intro hp envLater
    have sH : AllStored200 (settlePuts envLater (handleFetch env request w).2).caches :=
      allStored200_settlePuts envLater _ (effect_allPending200 hH hp) aH
    refine ⟨allStored200_settlePuts envLater _ (effect_allPending200 hN hp)
        (effect_allStored200 hN h),
      allStored200_settlePuts envLater _ (effect_allPending200 hC hp)
        (effect_allStored200 hC h), sH, ?_⟩
    intro later entry hm
    have hs := allStored200_match sH hm
    exact ⟨hs, by omega, by omega⟩

theorem only_status_200_persisted_witness :
    AllStored200 cachedWorld.caches ∧
    AllStored200
      (handleFetch onlineEnv (getRequest "/fishy.js" (some "*/*")) cachedWorld).2.caches ∧
    AllStored200
      (settlePuts onlineEnv
        (handleFetch onlineEnv (getRequest "/fishy.js" (some "*/*")) cachedWorld).2).caches :=
  have h0 : AllStored200 cachedWorld.caches := by
    intro p hp e he
    simp only [cachedWorld, List.mem_singleton] at hp
    subst hp
    simp only [List.mem_singleton] at he
    subst he
    rfl
  have h := only_status_200_persisted onlineEnv (getRequest "/fishy.js" (some "*/*"))
    CACHE_VERSION cachedWorld h0
  ⟨h0, h.2.2.2.2.2.1,
    (h.2.2.2.2.2.2.2.2.2.2 (fun _ hq => absurd hq (List.not_mem_nil _)) onlineEnv).2.2.1⟩

theorem get_put_self (p : Partition) (k : RequestIdentity) (v : Response) :
    (p.put k v).get k = some v := by
  have hnone : List.find? (fun e => e.1 == k) (p.entries.filter (fun e => e.1 != k)) = none := by
    rw [List.find?_eq_none]
    intro x hx
    have := (List.mem_filter.1 hx).2
    simpa using this
  simp [Partition.get, Partition.put, List.find?_append, hnone]

theorem mem_cachesKeys_open (n : String) (cs : List Partition) :
    n ∈ cachesKeys (cachesOpen n cs) := by
  unfold cachesOpen
  split
  · rename_i h
    obtain ⟨p, hp, hn⟩ := List.any_eq_true.1 h
    exact List.mem_map.2 ⟨p, hp, by simpa using hn⟩
  · simp [cachesKeys]

theorem notCached_open {cs : List Partition} {k : RequestIdentity} (n : String)
    (h : ¬ Cached cs k) : ¬ Cached (cachesOpen n cs) k := by
  unfold cachesOpen
  split
  · exact h
  · rintro ⟨p, hp, e, he, hk⟩
    rcases List.mem_append.1 hp with hp | hp
    · exact h ⟨p, hp, e, he, hk⟩
    · simp only [List.mem_singleton] at hp
      subst hp
      simp at he

theorem notCached_put {cs : List Partition} {k k1 : RequestIdentity} (n : String)
    (v : Response) (hne : k1 ≠ k) (h : ¬ Cached cs k) : ¬ Cached (cachePut n k1 v cs) k := by
  rintro ⟨p, hp, e, he, hk⟩
  simp only [cachePut, List.mem_map] at hp
  obtain ⟨q, hq, rfl⟩ := hp
  split at he
  · simp only [Partition.put, List.mem_append, List.mem_filter, List.mem_singleton] at he
    rcases he with he | he
    · exact h ⟨q, hq, e, he.1, hk⟩
    · rw [he] at hk; exact hne hk
  · exact h ⟨q, hq, e, he, hk⟩

/-- Completing writes for other identities stores nothing for identity `k` and keeps every
partition name. -/
theorem settle_foldl_other (env : Env) (k : RequestIdentity) (qs : List PendingPut)
    (cs : List Partition) (hq : ∀ q ∈ qs, q.key ≠ k) (h : ¬ Cached cs k) :
    ¬ Cached (qs.foldl
        (fun cs q => if env.putFails q then cs else cachePut q.cacheName q.key q.response cs)
        cs) k ∧
    cachesKeys (qs.foldl
        (fun cs q => if env.putFails q then cs else cachePut q.cacheName q.key q.response cs)
        cs) = cachesKeys cs := by
  induction qs generalizing cs with
  | nil => exact ⟨h, rfl⟩
  | cons q qs ih =>
    simp only [List.foldl_cons]
    have hq1 : ∀ x ∈ qs, x.key ≠ k := fun x hx => hq x (List.mem_cons_of_mem _ hx)
    by_cases hf : env.putFails q = true
    · simp only [hf, if_true]
      exact ih cs hq1 h
    · simp only [hf, Bool.false_eq_true, if_false]
      obtain ⟨i1, i2⟩ := ih (cachePut q.cacheName q.key q.response cs) hq1
        (notCached_put _ _ (hq q (List.mem_cons_self _ _)) h)
      exact ⟨i1, by rw [i2, cachesKeys_cachePut]⟩

theorem cachesMatch_cachePut {cs : List Partition} {request : Request} (n : String)
    (v : Response) (h : ¬ Cached cs request.identity) (hn : n ∈ cachesKeys cs) :
    cachesMatch (cachePut n request.identity v cs) request = some v := by
  induction cs with
  | nil => simp [cachesKeys] at hn
  | cons p ps ih =>
    simp only [cachesMatch, cachePut, List.map_cons, List.findSome?_cons]
    by_cases hp : p.name = n
    · simp [hp, get_put_self]
    · have hget : p.get request.identity = none :=
        get_eq_none.2 (fun e he hk => h ⟨p, List.mem_cons_self _ _, e, he, hk⟩)
      have hps : ¬ Cached ps request.identity := by
        rintro ⟨q, hq, e, he, hk⟩
        exact h ⟨q, List.mem_cons_of_mem _ hq, e, he, hk⟩
      have hn1 : n ∈ cachesKeys ps := by
        simp only [cachesKeys, List.map_cons, List.mem_cons] at hn
        rcases hn with hn | hn
        · exact absurd hn.symm hp
        · exact hn
      have := ih hps hn1
      simp only [cachesMatch, cachePut] at this
      have hpb : (p.name == n) = false := by simpa using hp
      simp only [hpb, Bool.false_eq_true, if_false, hget]
      exact this

theorem mem_cachePut_entry {cs : List Partition} (n : String) (k : RequestIdentity)
    (v : Response) (hn : n ∈ cachesKeys cs) :
    ∃ p ∈ cachePut n k v cs, p.name = n ∧ (k, v) ∈ p.entries := by
  obtain ⟨q, hq, hqn⟩ := List.mem_map.1 hn
  refine ⟨q.put k v, ?_, ?_, ?_⟩
  · exact List.mem_map.2 ⟨q, hq, by simp [hqn]⟩
  · simpa [Partition.put] using hqn
  · simp [Partition.put]

/-- C4, refuted: with empty caches and a network answering 200, the first `handleFetch` for
`/fishy_bg.wasm` returns while its write is in flight (the core partition is open and holds
no entry), and a second `handleFetch` for the same request made at that moment misses the
cache and invokes the network primitive again. -/
theorem second_request_before_write_completes_fetches_again :
    (handleFetch onlineEnv (getRequest "/fishy_bg.wasm" (some "*/*")) emptyWorld).1
      = .ok okResponse ∧
    (handleFetch onlineEnv (getRequest "/fishy_bg.wasm" (some "*/*")) emptyWorld).2.caches
      = [{ name := CACHE_VERSION, entries := [] }] ∧
    (handleFetch onlineEnv (getRequest "/fishy_bg.wasm" (some "*/*")) emptyWorld).2.pendingPuts
      = [{ cacheName := CACHE_VERSION,
           key := (getRequest "/fishy_bg.wasm" (some "*/*")).identity,
           response := okResponse }] ∧
    (handleFetch onlineEnv (getRequest "/fishy_bg.wasm" (some "*/*"))
        (handleFetch onlineEnv (getRequest "/fishy_bg.wasm" (some "*/*")) emptyWorld).2).2.fetched
      = [getRequest "/fishy_bg.wasm" (some "*/*"), getRequest "/fishy_bg.wasm" (some "*/*")] := by
  refine ⟨?_, ?_, ?_, ?_⟩ <;> rfl

/-- C4, amended: for a GET request whose Accept header lacks `text/html` and whose path ends
in `.wasm` or `.js`, with no entry for its identity in any partition or write in flight and a
status-200 network response, the first `handleFetch` invokes the network primitive, returns
the response and starts its write under the request identity into `CACHE_VERSION`. Once that
write has completed, the entry is in the core partition and a second `handleFetch` for the
same request returns it and invokes no network primitive, whatever the network would answer;
a second `handleFetch` made before the write completes invokes the network primitive
again. -/
theorem critical_second_request_hits_once_written (env env2 envPut : Env)
    (request : Request) (accept : String) (resp : Response) (w : World)
    (hGet : request.method = "GET")
    (hAccept : request.accept = some accept)
    (hHtml : includes accept "text/html" = false)
    (hPath : endsWith request.url.pathname ".wasm" = true ∨
      endsWith request.url.pathname ".js" = true)
    (hMiss : ¬ Cached w.caches request.identity)
    (hQuiet : ∀ q ∈ w.pendingPuts, q.key ≠ request.identity)
    (hNet : env.fetch request = .ok resp) (hStatus : resp.status = 200)
    (hPut : envPut.putFails
      { cacheName := CACHE_VERSION, key := request.identity, response := resp } = false) :
    (handleFetch env request w).1 = .ok resp ∧
    (handleFetch env request w).2.fetched = w.fetched ++ [request] ∧
    (handleFetch env request w).2.pendingPuts = w.pendingPuts ++
      [{ cacheName := CACHE_VERSION, key := request.identity, response := resp }] ∧
    (∃ p ∈ (settlePuts envPut (handleFetch env request w).2).caches,
      p.name = CACHE_VERSION ∧ (request.identity, resp) ∈ p.entries) ∧
    (handleFetch env2 request (settlePuts envPut (handleFetch env request w).2)).1
      = .ok resp ∧
    (handleFetch env2 request (settlePuts envPut (handleFetch env request w).2)).2.fetched
      = (handleFetch env request w).2.fetched ∧
    (handleFetch env2 request (handleFetch env request w).2).2.fetched
      = (handleFetch env request w).2.fetched ++ [request] ∧
    request.identity.method = "GET" := by
  have hcrit : (endsWith request.url.pathname ".wasm" || endsWith request.url.pathname ".js")
      = true := by
    rcases hPath with h | h <;> simp [h]
  have hdisp : ∀ (e : Env) (v : World), handleFetch e request v
      = cacheFirst e request CACHE_VERSION v := by
    intro e v
    simp only [handleFetch, hAccept, hHtml, hcrit, if_true, Bool.false_eq_true, if_false]
  have hm : cachesMatch w.caches request = none := cachesMatch_eq_none.2 hMiss
  have h1 : handleFetch env request w = (.ok resp,
      startPut CACHE_VERSION request.identity resp
        { w with fetched := w.fetched ++ [request],
                 caches := cachesOpen CACHE_VERSION w.caches }) := by
    rw [hdisp]
    simp only [cacheFirst, hm, fetch, hNet, hStatus, if_true]
  -- the state in which the write is in flight still has no entry for the identity
  have hm1 : cachesMatch (handleFetch env request w).2.caches request = none := by
    rw [h1]
    exact cachesMatch_eq_none.2 (notCached_open CACHE_VERSION hMiss)
  -- the partitions once the writes in flight have completed
  obtain ⟨hs1, hs2⟩ := settle_foldl_other envPut request.identity w.pendingPuts
    (cachesOpen CACHE_VERSION w.caches) hQuiet (notCached_open CACHE_VERSION hMiss)
  have hkey : CACHE_VERSION ∈ cachesKeys (w.pendingPuts.foldl
      (fun cs q => if envPut.putFails q then cs else cachePut q.cacheName q.key q.response cs)
      (cachesOpen CACHE_VERSION w.caches)) := by
    rw [hs2]; exact mem_cachesKeys_open _ _
  have hsettled : (settlePuts envPut (handleFetch env request w).2).caches =
      cachePut CACHE_VERSION request.identity resp (w.pendingPuts.foldl
        (fun cs q => if envPut.putFails q then cs else cachePut q.cacheName q.key q.response cs)
        (cachesOpen CACHE_VERSION w.caches)) := by
    rw [h1]
    simp only [settlePuts, startPut, List.foldl_append, List.foldl_cons, List.foldl_nil, hPut,
      Bool.false_eq_true, if_false]
  have hm2 : cachesMatch (settlePuts envPut (handleFetch env request w).2).caches request
      = some resp := by
    rw [hsettled]
    exact cachesMatch_cachePut CACHE_VERSION resp hs1 hkey
  have h2 : handleFetch env2 request (settlePuts envPut (handleFetch env request w).2)
      = (.ok resp, settlePuts envPut (handleFetch env request w).2) := by
    rw [hdisp]
    simp only [cacheFirst, hm2]
  have h3 : (handleFetch env2 request (handleFetch env request w).2).2.fetched
      = (handleFetch env request w).2.fetched ++ [request] := by
    rw [hdisp env2]
    simp only [cacheFirst, hm1, fetch, startPut]
    cases env2.fetch request with
    | error e => rfl
    | ok r2 => simp only; split <;> rfl
  refine ⟨?_, ?_, ?_, ?_, ?_, ?_, h3, hGet⟩
  · rw [h1]
  · rw [h1]; rfl
  · rw [h1]; rfl
  · rw [hsettled]
    exact mem_cachePut_entry CACHE_VERSION request.identity resp hkey
  · rw [h2]
  · rw [h2]; rfl

theorem critical_second_request_hits_once_written_witness :
    (handleFetch onlineEnv (getRequest "/fishy_bg.wasm" (some "*/*")) installedWorld).1
        = .ok okResponse ∧
    (handleFetch offlineEnv (getRequest "/fishy_bg.wasm" (some "*/*"))
        (settlePuts onlineEnv
          (handleFetch onlineEnv (getRequest "/fishy_bg.wasm" (some "*/*"))
            installedWorld).2)).1
        = .ok okResponse :=
  have h := critical_second_request_hits_once_written onlineEnv offlineEnv onlineEnv
    (getRequest "/fishy_bg.wasm" (some "*/*")) "*/*" okResponse installedWorld
    rfl rfl (by decide) (Or.inl (by decide))
    (by
      rintro ⟨p, hp, e, he, hk⟩
      simp only [installedWorld, List.mem_singleton] at hp
      subst hp
      simp only [List.mem_singleton] at he
      subst he
      revert hk
      decide)
    (fun _ hq => absurd hq (List.not_mem_nil _)) rfl rfl rfl
  ⟨h.1, h.2.2.2.2.1⟩

/-- C5: for a request classified html (Accept header with `text/html`) or other (neither
critical nor asset), when the network primitive fails and no partition holds an entry for the
request identity, `handleFetch` resolves to the synthesized response of status 503 with
Content-Type `text/plain` and a non-empty body. -/
theorem offline_fallback_503 (env : Env) (request : Request) (accept : String) (w : World)
    (hAccept : request.accept = some accept)
    (hClass : includes accept "text/html" = true ∨
      (endsWith request.url.pathname ".wasm" = false ∧
        endsWith request.url.pathname ".js" = false ∧
        matchesCachePattern request.url.pathname = false))
    (hNet : ∃ e, env.fetch request = .error e)
    (hMiss : ¬ Cached w.caches request.identity) :
    ∃ resp, (handleFetch env request w).1 = .ok resp ∧ resp.status = 503 ∧
      resp.headers = [("Content-Type", "text/plain")] ∧ resp.body ≠ "" := by
  obtain ⟨e, he⟩ := hNet
  have hm : cachesMatch w.caches request = none := cachesMatch_eq_none.2 hMiss
  have hdisp : handleFetch env request w = networkFirst env request w := by
    rcases hClass with h | ⟨h1, h2, h3⟩
    · simp only [handleFetch, hAccept, h, if_true]
    · simp only [handleFetch, hAccept, h1, h2, h3, Bool.or_self, Bool.false_eq_true, if_false]
      split <;> rfl
  refine ⟨offlineResponse, ?_, rfl, rfl, by decide⟩
  rw [hdisp]
  simp only [networkFirst, fetch, he, hm]

theorem offline_fallback_503_witness :
    ∃ resp, (handleFetch offlineEnv (getRequest "/api/scores" (some "*/*")) emptyWorld).1
        = .ok resp ∧ resp.status = 503 ∧
      resp.headers = [("Content-Type", "text/plain")] ∧ resp.body ≠ "" :=
  offline_fallback_503 offlineEnv (getRequest "/api/scores" (some "*/*")) "*/*" emptyWorld
    rfl (Or.inr ⟨by decide, by decide, by decide⟩) ⟨_, rfl⟩
    (by simp [Cached, emptyWorld])

theorem mem_cachesOpen_of_ne {name : String} {cs : List Partition} {p : Partition}
    (hp : p ∈ cachesOpen name cs) (hne : p.name ≠ name) : p ∈ cs := by
  unfold cachesOpen at hp
  split at hp
  · exact hp
  · rcases List.mem_append.1 hp with h | h
    · exact h
    · simp only [List.mem_singleton] at h
      subst h
      exact absurd rfl hne

/-- C6: strategy selection is first-match-wins. With an Accept header value, `handleFetch`
is `networkFirst` when the value contains `text/html`; else `cacheFirst` on `fishy-v1.0.0`
when the path ends in `.wasm` or `.js`; else `cacheFirst` on `fishy-assets-v1.0.0` when the
path starts with `/assets/` or ends in an image, audio or font extension; else
`networkFirst`, which opens and writes to no partition but the runtime one. An html
request for a `.js` path goes network-first, and `/assets/app.js` goes to the core
partition. -/
theorem strategy_selection_first_match_wins (env : Env) (method : String) (url : URL)
    (accept : String) (w : World) :
    handleFetch env ⟨method, url, some accept⟩ w =
      (if includes accept "text/html" then
        networkFirst env ⟨method, url, some accept⟩ w
      else if endsWith url.pathname ".wasm" || endsWith url.pathname ".js" then
        cacheFirst env ⟨method, url, some accept⟩ "fishy-v1.0.0" w
      else if startsWith url.pathname "/assets/" ||
          [".png", ".jpg", ".jpeg", ".gif", ".webp", ".svg", ".ogg", ".mp3", ".wav",
            ".woff", ".woff2", ".ttf", ".otf"].any (fun ext => endsWith url.pathname ext) then
        cacheFirst env ⟨method, url, some accept⟩ "fishy-assets-v1.0.0" w
      else
        networkFirst env ⟨method, url, some accept⟩ w) ∧
    (∀ p ∈ (networkFirst env ⟨method, url, some accept⟩ w).2.caches,
      p.name ≠ "fishy-runtime-v1.0.0" → p ∈ w.caches) ∧
    (∀ q ∈ (networkFirst env ⟨method, url, some accept⟩ w).2.pendingPuts,
      q.cacheName ≠ "fishy-runtime-v1.0.0" → q ∈ w.pendingPuts) ∧
    handleFetch env ⟨method, { url with pathname := "/fishy.js" }, some "text/html,*/*"⟩ w =
      networkFirst env ⟨method, { url with pathname := "/fishy.js" }, some "text/html,*/*"⟩ w ∧
    handleFetch env ⟨method, { url with pathname := "/assets/app.js" }, some "*/*"⟩ w =
      cacheFirst env ⟨method, { url with pathname := "/assets/app.js" }, some "*/*"⟩
        "fishy-v1.0.0" w := by
  refine ⟨?_, ?_, ?_, ?_, ?_⟩
  · simp only [handleFetch, matchesCachePattern_eq, CACHE_VERSION, ASSET_CACHE]
  · intro p hp hne
    rcases networkFirst_effect env ⟨method, url, some accept⟩ w with ⟨h, _⟩ | ⟨_, _, _, h, _⟩
    · rw [h] at hp; exact hp
    · rw [h] at hp; exact mem_cachesOpen_of_ne hp hne
  · intro q hq hne
    rcases effect_pending (networkFirst_effect env ⟨method, url, some accept⟩ w) q hq
      with h | ⟨h, _⟩
    · exact h
    · exact absurd h hne
  · have h : includes "text/html,*/*" "text/html" = true := by decide
    simp only [handleFetch, h, if_true]
  · have h1 : includes "*/*" "text/html" = false := by decide
    have h2 : endsWith "/assets/app.js" ".js" = true := by decide
    simp only [handleFetch, h1, h2, Bool.or_true, if_true, Bool.false_eq_true, if_false,
      CACHE_VERSION]

/-- C7, refuted: the request identity is absent from the partition handed to `cacheFirst`
(the assets partition) and present in the runtime partition; `cacheFirst` returns the stored
entry, leaves the state unchanged and makes no network attempt. -/
theorem cacheFirst_serves_entry_of_other_partition :
    Partition.get { name := ASSET_CACHE, entries := [] }
        (getRequest "/logo.png" (some "image/png")).identity = none ∧
    cacheFirst offlineEnv (getRequest "/logo.png" (some "image/png")) ASSET_CACHE
        { emptyWorld with caches :=
            [{ name := RUNTIME_CACHE,
               entries := [((getRequest "/logo.png" (some "image/png")).identity, okResponse)] },
             { name := ASSET_CACHE, entries := [] }] } =
      (.ok okResponse,
        { emptyWorld with caches :=
            [{ name := RUNTIME_CACHE,
               entries := [((getRequest "/logo.png" (some "image/png")).identity, okResponse)] },
             { name := ASSET_CACHE, entries := [] }] }) ∧
    (cacheFirst offlineEnv (getRequest "/logo.png" (some "image/png")) ASSET_CACHE
        { emptyWorld with caches :=
            [{ name := RUNTIME_CACHE,
               entries := [((getRequest "/logo.png" (some "image/png")).identity, okResponse)] },
             { name := ASSET_CACHE, entries := [] }] }).2.fetched = [] := by
  refine ⟨rfl, ?_, ?_⟩ <;> rfl

/-- C7, amended: `cacheFirst` looks the request identity up in all partitions. When some
partition holds an entry for it, `cacheFirst` returns a stored entry and leaves the state
unchanged, with no network attempt and no write. When no partition holds one, it invokes the
network primitive and resolves to the network response, or to the 404 placeholder on
failure; on a network response of status 200 it opens partition `cacheName` and starts the
write of that response under the request identity into `cacheName`, where the entry is once
the write has completed; on any other outcome it opens no partition and starts no write. -/
theorem cacheFirst_hit_iff_cached_anywhere (env envPut : Env) (request : Request)
    (cacheName : String) (w : World) :
    (Cached w.caches request.identity →
      ∃ p ∈ w.caches, ∃ entry, (request.identity, entry) ∈ p.entries ∧
        cacheFirst env request cacheName w = (.ok entry, w)) ∧
    (¬ Cached w.caches request.identity →
      (cacheFirst env request cacheName w).2.fetched = w.fetched ++ [request] ∧
      (cacheFirst env request cacheName w).1 =
        (match env.fetch request with
          | .ok networkResponse => .ok networkResponse
          | .error _ => .ok unavailableResponse) ∧
      (∀ resp, env.fetch request = .ok resp → resp.status = 200 →
        (cacheFirst env request cacheName w).2.caches = cachesOpen cacheName w.caches ∧
        (cacheFirst env request cacheName w).2.pendingPuts = w.pendingPuts ++
          [{ cacheName := cacheName, key := request.identity, response := resp }] ∧
        (envPut.putFails
            { cacheName := cacheName, key := request.identity, response := resp } = false →
          ∃ p ∈ (settlePuts envPut (cacheFirst env request cacheName w).2).caches,
            p.name = cacheName ∧ (request.identity, resp) ∈ p.entries)) ∧
      ((∀ resp, env.fetch request = .ok resp → resp.status ≠ 200) →
        (cacheFirst env request cacheName w).2.caches = w.caches ∧
        (cacheFirst env request cacheName w).2.pendingPuts = w.pendingPuts)) := by
  constructor
  · intro hc
    obtain ⟨v, hv⟩ := cachesMatch_isSome.2 hc
    obtain ⟨p, hp, he⟩ := cachesMatch_eq_some hv
    exact ⟨p, hp, v, he, by simp only [cacheFirst, hv]⟩
  · intro hc
    have hm := cachesMatch_eq_none.2 hc
    cases hf : env.fetch request with
    | error e =>
      have hr : cacheFirst env request cacheName w = (.ok unavailableResponse,
          { w with fetched := w.fetched ++ [request],
                   console := w.console ++ ["[Fishy SW] Failed to fetch:"] }) := by
        simp only [cacheFirst, hm, fetch, hf]
      rw [hr]
      refine ⟨rfl, rfl, ?_, ?_⟩
      · intro resp h; cases h
      · intro _; exact ⟨rfl, rfl⟩
    | ok resp =>
      by_cases hs : resp.status = 200
      · have hr : cacheFirst env request cacheName w = (.ok resp,
            startPut cacheName request.identity resp
              { w with fetched := w.fetched ++ [request],
                       caches := cachesOpen cacheName w.caches }) := by
          simp only [cacheFirst, hm, fetch, hf, hs, if_true]
        rw [hr]
        refine ⟨rfl, rfl, ?_, ?_⟩
        · intro r2 h2 _
          cases h2
          refine ⟨rfl, rfl, ?_⟩
          intro hput
          have hkey : cacheName ∈ cachesKeys (w.pendingPuts.foldl
              (fun cs q =>
                if envPut.putFails q then cs else cachePut q.cacheName q.key q.response cs)
              (cachesOpen cacheName w.caches)) := by
            rw [cachesKeys_settle_foldl]; exact mem_cachesKeys_open _ _
          simp only [settlePuts, startPut, List.foldl_append, List.foldl_cons, List.foldl_nil,
            hput, Bool.false_eq_true, if_false]
          exact mem_cachePut_entry cacheName request.identity resp hkey
        · intro hall
          exact absurd hs (hall resp rfl)
      · have hr : cacheFirst env request cacheName w = (.ok resp,
            { w with fetched := w.fetched ++ [request] }) := by
          simp only [cacheFirst, hm, fetch, hf, hs, if_false]
        rw [hr]
        refine ⟨rfl, rfl, ?_, ?_⟩
        · intro r2 h2 h200
          cases h2
          exact absurd h200 hs
        · intro _; exact ⟨rfl, rfl⟩

theorem cacheFirst_hit_iff_cached_anywhere_witness :
    (∃ p ∈ cachedWorld.caches, ∃ entry,
      ((getRequest "/logo.png" (some "image/png")).identity, entry) ∈ p.entries ∧
      cacheFirst offlineEnv (getRequest "/logo.png" (some "image/png")) CACHE_VERSION
        cachedWorld = (.ok entry, cachedWorld)) ∧
    (∃ p ∈ (settlePuts onlineEnv
        (cacheFirst onlineEnv (getRequest "/fishy.js" (some "*/*")) CACHE_VERSION
          cachedWorld).2).caches,
      p.name = CACHE_VERSION ∧
        ((getRequest "/fishy.js" (some "*/*")).identity, okResponse) ∈ p.entries) :=
  ⟨(cacheFirst_hit_iff_cached_anywhere offlineEnv onlineEnv
      (getRequest "/logo.png" (some "image/png")) CACHE_VERSION cachedWorld).1
      ⟨_, List.mem_singleton.2 rfl, _, List.mem_singleton.2 rfl, rfl⟩,
    ((cacheFirst_hit_iff_cached_anywhere onlineEnv onlineEnv
      (getRequest "/fishy.js" (some "*/*")) CACHE_VERSION cachedWorld).2
      (by
        rintro ⟨p, hp, e, he, hk⟩
        simp only [cachedWorld, List.mem_singleton] at hp
        subst hp
        simp only [List.mem_singleton] at he
        subst he
        revert hk
        decide)).2.2.1 okResponse rfl rfl |>.2.2 rfl⟩

/-- C9, failing input: a GET https request without Accept header passes the guards of the
fetch listener, and `handleFetch` rejects with a `TypeError` instead of settling to a
response. -/
theorem handleFetch_rejects_without_accept_header :
    onFetch onlineEnv (getRequest "/api/scores" none)
        = some (handleFetch onlineEnv (getRequest "/api/scores" none)) ∧
    handleFetch onlineEnv (getRequest "/api/scores" none) emptyWorld =
      (.error "TypeError: Cannot read properties of null (reading 'includes')", emptyWorld) := by
  constructor
  · rfl
  · rfl

/-- Network-first freshness: when the network answers, `networkFirst` returns the network
response without reading the cache, whatever entry is stored for the request. -/
theorem networkFirst_returns_network_response (env : Env) (request : Request)
    (resp : Response) (w : World) (hNet : env.fetch request = .ok resp) :
    (networkFirst env request w).1 = .ok resp ∧
    (networkFirst env request w).2.fetched = w.fetched ++ [request] := by
  simp only [networkFirst, fetch, hNet]
  split <;> exact ⟨rfl, rfl⟩

/-- With an Accept header present, `handleFetch` settles to a response for every network
outcome and cache state. -/
theorem handleFetch_responds_of_accept (env : Env) (request : Request) (accept : String)
    (w : World) (hAccept : request.accept = some accept) :
    ∃ resp, (handleFetch env request w).1 = .ok resp := by
  have hN : ∀ v, ∃ resp, (networkFirst env request v).1 = .ok resp := by
    intro v
    simp only [networkFirst, fetch]
    cases env.fetch request with
    | error e =>
      simp only
      cases cachesMatch v.caches request <;> exact ⟨_, rfl⟩
    | ok resp =>
      simp only
      split <;> exact ⟨_, rfl⟩
  have hC : ∀ n v, ∃ resp, (cacheFirst env request n v).1 = .ok resp := by
    intro n v
    simp only [cacheFirst, fetch]
    cases cachesMatch v.caches request with
    | some c => exact ⟨_, rfl⟩
    | none =>
      simp only
      cases env.fetch request with
      | error e => exact ⟨_, rfl⟩
      | ok resp =>
        simp only
        split <;> exact ⟨_, rfl⟩
  rcases handleFetch_cases env request w with ⟨h0, _⟩ | h | ⟨n, h⟩
  · rw [hAccept] at h0; cases h0
  · rw [h]; exact hN w
  · rw [h]; exact hC n w

end Fishy
